import Mathlib

/-!
Shallow embedding of the chess-variant client engine (the final revision in
`part_002`, plus the earlier `frontend-v2.5/game.js` revision where a claim
targets it).  Boards are total functions `Int → Int → Option Piece`; a cell
outside the 8×8 grid is `none`, matching the JS convention that an
out-of-range array index reads as `undefined`.  Mutating code (the
king-safety simulation) is embedded in state-passing style so that its
effect on the board is an explicit output.
-/

namespace Chess

inductive Color where
  | white
  | black
deriving DecidableEq

def Color.opposite : Color → Color
  | .white => .black
  | .black => .white

inductive PieceType where
  | pawn
  | rook
  | knight
  | bishop
  | queen
  | king
deriving DecidableEq

structure Piece where
  color : Color
  type : PieceType
  moved : Bool
deriving DecidableEq

/-- `board[x][y]`: 8×8 grid of optional pieces, total on `Int` with `none`
outside the grid (JS `undefined`). -/
def Board := Int → Int → Option Piece

/-- `this.board[x][y] = v` -/
def setCell (b : Board) (x y : Int) (v : Option Piece) : Board :=
  fun i j => if i = x ∧ j = y then v else b i j

/-- The bounds test `nx >= 0 && nx <= 7 && ny >= 0 && ny <= 7` used by
`addMove` / `addAttack` / the custom-offset loops. -/
def inBoard (x y : Int) : Bool :=
  decide (0 ≤ x ∧ x ≤ 7 ∧ 0 ≤ y ∧ y ≤ 7)

/-- Rook ray directions, in source order. -/
def rookDirs : List (Int × Int) := [(0, 1), (0, -1), (1, 0), (-1, 0)]

/-- Bishop ray directions, in source order. -/
def bishopDirs : List (Int × Int) := [(1, 1), (1, -1), (-1, 1), (-1, -1)]

/-- Queen (and king-offset) directions, in source order. -/
def queenDirs : List (Int × Int) :=
  [(0, 1), (0, -1), (1, 0), (-1, 0), (1, 1), (1, -1), (-1, 1), (-1, -1)]

/-- Knight offsets, in source order. -/
def knightOffs : List (Int × Int) :=
  [(-2, -1), (-2, 1), (-1, -2), (-1, 2), (1, -2), (1, 2), (2, -1), (2, 1)]

/-- One sliding ray: `for (let i = 1; i < 8; i++) if (!addMove(x+dx*i, y+dy*i)) break;`.
The loop body is `addMove`: out of bounds stops the walk; an empty square is
pushed as a move and the walk continues; an occupied square stops the walk
and is pushed as an attack iff the occupant is an enemy.  The JS loop
evaluates `x + dx*i` from the fixed origin; stepping the cursor one offset
per iteration visits the same squares.  Fuel `7` is the loop bound `i < 8`. -/
def rayWalk (b : Board) (pc : Color) : Nat → Int → Int → Int → Int →
    List (Int × Int) × List (Int × Int)
  | 0, _, _, _, _ => ([], [])
  | n + 1, x, y, dx, dy =>
    let nx := x + dx
    let ny := y + dy
    if inBoard nx ny then
      match b nx ny with
      | none =>
        let r := rayWalk b pc n nx ny dx dy
        ((nx, ny) :: r.1, r.2)
      | some t => if t.color ≠ pc then ([], [(nx, ny)]) else ([], [])
    else ([], [])

/-- All rays of a slider, concatenated in direction order (the JS `forEach`
pushes each ray's squares into the shared arrays in this order). -/
def slideAll (b : Board) (pc : Color) (x y : Int) :
    List (Int × Int) → List (Int × Int) × List (Int × Int)
  | [] => ([], [])
  | d :: ds =>
    let r := rayWalk b pc 7 x y d.1 d.2
    let rest := slideAll b pc x y ds
    (r.1 ++ rest.1, r.2 ++ rest.2)

/-- Fixed-offset pieces (knight, king): one `addMove` per offset, in order. -/
def stepAll (b : Board) (pc : Color) (x y : Int) :
    List (Int × Int) → List (Int × Int) × List (Int × Int)
  | [] => ([], [])
  | d :: ds =>
    let nx := x + d.1
    let ny := y + d.2
    let rest := stepAll b pc x y ds
    if inBoard nx ny then
      match b nx ny with
      | none => ((nx, ny) :: rest.1, rest.2)
      | some t => if t.color ≠ pc then (rest.1, (nx, ny) :: rest.2) else rest
    else rest

/-- Pawn geometry: single/double forward push onto empty squares (the forward
probe `this.board[x][y + dir]` has no bounds check, so a last-rank pawn's
forward square is the off-board cell, which reads `none`), plus the two
diagonal capture-only probes, which are bounds-checked. -/
def pawnGen (b : Board) (p : Piece) (x y : Int) :
    List (Int × Int) × List (Int × Int) :=
  let dir : Int := if p.color = Color.white then -1 else 1
  let fwd : List (Int × Int) :=
    if b x (y + dir) = none then
      (x, y + dir) ::
        (if p.moved = false ∧ b x (y + 2 * dir) = none then [(x, y + 2 * dir)] else [])
    else []
  let atk : List (Int × Int) :=
    ([(-1 : Int), 1].filterMap fun dx =>
      let nx := x + dx
      let ny := y + dir
      if inBoard nx ny then
        match b nx ny with
        | some t => if t.color ≠ p.color then some (nx, ny) else none
        | none => none
      else none)
  (fwd, atk)

/-- `getPieceMoves(x, y)`: base-geometry `[moves, attacks]` for the piece at
`(x, y)`.  This is the move function `isInCheck` and `hasValidMoves` consult;
it does NOT read the custom-move table. -/
def getPieceMoves (b : Board) (x y : Int) : List (Int × Int) × List (Int × Int) :=
  match b x y with
  | none => ([], [])
  | some p =>
    match p.type with
    | .pawn => pawnGen b p x y
    | .rook => slideAll b p.color x y rookDirs
    | .knight => stepAll b p.color x y knightOffs
    | .bishop => slideAll b p.color x y bishopDirs
    | .queen => slideAll b p.color x y queenDirs
    | .king => stepAll b p.color x y queenDirs

/-- `target && target.color !== piece.color`: the square holds an enemy. -/
def isEnemyAt (b : Board) (pc : Color) (x y : Int) : Bool :=
  match b x y with
  | some t => decide (t.color ≠ pc)
  | none => false

/-- One entry of the CustomMoveTable: `{ moves: [...], attacks: [...] }`. -/
structure OffsetSets where
  moves : List (Int × Int)
  attacks : List (Int × Int)
deriving DecidableEq

/-- `this.customMoves`: per color and piece type, an optional entry (a JS
object with absent keys reading `undefined`). -/
def CMT := Color → PieceType → Option OffsetSets

/-- `calculateValidMoves(x, y)`: base geometry (the switch is character-for-
character the one in `getPieceMoves`) followed by the custom-offset section:
a custom move offset lands only on an empty in-bounds square and is pushed
unless already present; a custom attack offset lands only on an in-bounds
enemy-occupied square and is pushed unless already present. -/
def calculateValidMoves (cm : CMT) (b : Board) (x y : Int) :
    List (Int × Int) × List (Int × Int) :=
  match b x y with
  | none => ([], [])
  | some p =>
    let base :=
      match p.type with
      | .pawn => pawnGen b p x y
      | .rook => slideAll b p.color x y rookDirs
      | .knight => stepAll b p.color x y knightOffs
      | .bishop => slideAll b p.color x y bishopDirs
      | .queen => slideAll b p.color x y queenDirs
      | .king => stepAll b p.color x y queenDirs
    match cm p.color p.type with
    | none => base
    | some cust =>
      let ms := cust.moves.foldl (fun acc d =>
        let nx := x + d.1
        let ny := y + d.2
        if inBoard nx ny ∧ b nx ny = none ∧ (nx, ny) ∉ acc then acc ++ [(nx, ny)]
        else acc) base.1
      let as' := cust.attacks.foldl (fun acc d =>
        let nx := x + d.1
        let ny := y + d.2
        if inBoard nx ny ∧ isEnemyAt b p.color nx ny ∧ (nx, ny) ∉ acc then
          acc ++ [(nx, ny)]
        else acc) base.2
      (ms, as')

/-- The double scan `for (let x = 0; x < 8; x++) for (let y = 0; y < 8; y++)`,
x-major, as a square list. -/
def allSquares : List (Int × Int) :=
  (List.range 8).flatMap fun x => (List.range 8).map fun y => ((x : Int), (y : Int))

/-- The king-locating scan at the top of `isInCheck` (first match in x-major
order, both loops breaking once found). -/
def findKing (b : Board) (c : Color) : Option (Int × Int) :=
  allSquares.find? fun q =>
    match b q.1 q.2 with
    | some p => decide (p.type = PieceType.king ∧ p.color = c)
    | none => false

/-- Does the (enemy) piece at `q` base-attack square `k`?  The body of the
second scan in `isInCheck`: `piece.color === opponentColor` and
`attacks.some(([ax, ay]) => ax === kx && ay === ky)`, with `attacks` taken
from `getPieceMoves` (base geometry only). -/
def enemyAttacksSq (b : Board) (c : Color) (k : Int × Int) (q : Int × Int) : Bool :=
  match b q.1 q.2 with
  | some p => decide (p.color = Color.opposite c) && decide (k ∈ (getPieceMoves b q.1 q.2).2)
  | none => false

/-- `isInCheck(color)`: locate the king (returning `false` when absent), then
scan all squares for an enemy piece whose base attack set contains the king's
square. -/
def isInCheck (b : Board) (c : Color) : Bool :=
  match findKing b c with
  | none => false
  | some k => allSquares.any (enemyAttacksSq b c k)

/-- One trial of the king-safety simulation: record `originalPiece`, play the
candidate on the live board, query `isInCheck`, then restore both cells in
source order.  Returns the check result together with the board as the code
leaves it. -/
def trialStep (b : Board) (c : Color) (sx sy mx my : Int) (p : Piece) :
    Bool × Board :=
  let orig := b mx my
  let b1 := setCell b sx sy none
  let b2 := setCell b1 mx my (some p)
  let still := isInCheck b2 c
  let b3 := setCell b2 sx sy (some p)
  let b4 := setCell b3 mx my orig
  (still, b4)

/-- The inner candidate loop of `hasValidMoves`: first candidate surviving the
simulation returns `true` early. -/
def tryCands (c : Color) (sx sy : Int) (p : Piece) :
    List (Int × Int) → Board → Bool × Board
  | [], b => (false, b)
  | (mx, my) :: rest, b =>
    if (trialStep b c sx sy mx my p).1 then
      tryCands c sx sy p rest (trialStep b c sx sy mx my p).2
    else (true, (trialStep b c sx sy mx my p).2)

/-- The square scan of `hasValidMoves`: for each own piece, candidates are
`[...moves, ...attacks]` from `getPieceMoves` (base geometry). -/
def hvmGo (c : Color) : List (Int × Int) → Board → Bool × Board
  | [], b => (false, b)
  | (x, y) :: rest, b =>
    match b x y with
    | some p =>
      if p.color = c then
        let pm := getPieceMoves b x y
        if (tryCands c x y p (pm.1 ++ pm.2) b).1 then
          (true, (tryCands c x y p (pm.1 ++ pm.2) b).2)
        else hvmGo c rest (tryCands c x y p (pm.1 ++ pm.2) b).2
      else hvmGo c rest b
    | none => hvmGo c rest b

/-- `hasValidMoves(color)` in state-passing form: the result together with the
board the call leaves behind. -/
def hasValidMovesS (b : Board) (c : Color) : Bool × Board :=
  hvmGo c allSquares b

def hasValidMoves (b : Board) (c : Color) : Bool :=
  (hasValidMovesS b c).1

/-- `isCheckmate(color) { return this.isInCheck(color) && !this.hasValidMoves(color); }` -/
def isCheckmate (b : Board) (c : Color) : Bool :=
  isInCheck b c && !hasValidMoves b c

/-- `isStalemate(color) { return !this.isInCheck(color) && !this.hasValidMoves(color); }` -/
def isStalemate (b : Board) (c : Color) : Bool :=
  !isInCheck b c && !hasValidMoves b c

/-- One filtering loop of `filterMovesInCheck`: keep each candidate whose
trial leaves the own king out of check; the board is threaded through the
per-candidate mutate/restore pairs. -/
def filterCands (c : Color) (sx sy : Int) (p : Piece) :
    List (Int × Int) → Board → List (Int × Int) × Board
  | [], b => ([], b)
  | (mx, my) :: rest, b =>
    if (trialStep b c sx sy mx my p).1 then
      filterCands c sx sy p rest (trialStep b c sx sy mx my p).2
    else
      let r := filterCands c sx sy p rest (trialStep b c sx sy mx my p).2
      ((mx, my) :: r.1, r.2)

/-- `filterMovesInCheck()`: reads the piece at the selected square (returning
the candidate lists untouched when absent), filters `validMoves` then
`validAttacks`, and yields the final board state. -/
def filterMovesInCheckS (b : Board) (sx sy : Int)
    (vm va : List (Int × Int)) :
    (List (Int × Int) × List (Int × Int)) × Board :=
  match b sx sy with
  | none => ((vm, va), b)
  | some p =>
    let r1 := filterCands p.color sx sy p vm b
    let r2 := filterCands p.color sx sy p va r1.2
    ((r1.1, r2.1), r2.2)

/-- One ability card: `{ pieceType, enabled, moves, attacks }`.  `enabled` is
`Option Bool` because a freshly saved card has no `enabled` key (JS
`undefined`), which every test in the source treats as enabled. -/
structure Card where
  pieceType : PieceType
  enabled : Option Bool
  moves : List (Int × Int)
  attacks : List (Int × Int)
deriving DecidableEq

/-- `this.abilityCards`: per color, an insertion-ordered name→card object. -/
structure Registry where
  white : List (String × Card)
  black : List (String × Card)

def regGet (r : Registry) : Color → List (String × Card)
  | .white => r.white
  | .black => r.black

def regSet (r : Registry) : Color → List (String × Card) → Registry
  | .white, l => { r with white := l }
  | .black, l => { r with black := l }

/-- `this.abilityCards[color][name]` (JS object keys are unique, so the first
match is the match). -/
def lookupCard (cards : List (String × Card)) (name : String) : Option Card :=
  match cards with
  | [] => none
  | (n, cd) :: rest => if n = name then some cd else lookupCard rest name

/-- The dedup push loop: `if (!list.some(m => m[0] === o[0] && m[1] === o[1])) list.push(o)`,
folded over a card's offsets. -/
def dedupAppend (l : List (Int × Int)) (os : List (Int × Int)) : List (Int × Int) :=
  os.foldl (fun acc o => if o ∈ acc then acc else acc ++ [o]) l

/-- `rebuildCustomMoves`' body for one enabled card: create the per-piece-type
entry when absent, then dedup-push the card's moves and attacks. -/
def addCardOffsets (t : PieceType → Option OffsetSets) (cd : Card) :
    PieceType → Option OffsetSets :=
  let e := (t cd.pieceType).getD ⟨[], []⟩
  let e' : OffsetSets := ⟨dedupAppend e.moves cd.moves, dedupAppend e.attacks cd.attacks⟩
  fun pt => if pt = cd.pieceType then some e' else t pt

def rebuildColorAux : List (String × Card) → (PieceType → Option OffsetSets) →
    PieceType → Option OffsetSets
  | [], t => t
  | (_, cd) :: rest, t =>
    rebuildColorAux rest (if cd.enabled = some false then t else addCardOffsets t cd)

/-- One color's pass of `rebuildCustomMoves`: iterate the cards in insertion
order, skipping the ones with `enabled === false`. -/
def rebuildColor (cards : List (String × Card)) : PieceType → Option OffsetSets :=
  rebuildColorAux cards (fun _ => none)

/-- `rebuildCustomMoves()`: reset the table and union all currently-enabled
cards for both colors. -/
def rebuildCustomMoves (r : Registry) : CMT := fun c =>
  match c with
  | .white => rebuildColor r.white
  | .black => rebuildColor r.black

/-- The card registry together with its (derived) custom-move table, the two
fields the card operations touch. -/
structure CardState where
  abilityCards : Registry
  customMoves : CMT

/-- `card.enabled = (card.enabled === true || card.enabled === undefined) ? false : true;` -/
def flipEnabled (e : Option Bool) : Option Bool :=
  if e = some true ∨ e = none then some false else some true

/-- The per-entry effect of a toggle on the registry list: flip `enabled`
on the named card, leave every other entry alone. -/
def toggleEntry (name : String) (nc : String × Card) : String × Card :=
  if nc.1 = name then (nc.1, { nc.2 with enabled := flipEnabled nc.2.enabled }) else nc

/-- `toggleCard(color, name)` on the local path: no-op when the card is
missing; otherwise flip `enabled` and rebuild the whole table from the
registry. -/
def toggleCard (s : CardState) (c : Color) (name : String) : CardState :=
  match lookupCard (regGet s.abilityCards c) name with
  | none => s
  | some _ =>
    let r' := regSet s.abilityCards c ((regGet s.abilityCards c).map (toggleEntry name))
    { abilityCards := r', customMoves := rebuildCustomMoves r' }

/-- The subtraction loops of `deleteCard`: for each offset of the deleted
card, `list = list.filter(m => !(m[0] === o[0] && m[1] === o[1]))`. -/
def subtractAll (l : List (Int × Int)) (os : List (Int × Int)) : List (Int × Int) :=
  os.foldl (fun acc o => acc.filter fun m => ¬(m = o)) l

/-- `deleteCard(color, name)` on the local path: subtract the card's offsets
from the table entry for its piece type by exact value (when that entry
exists), then remove the card from the registry.  No rebuild happens. -/
def deleteCard (s : CardState) (c : Color) (name : String) : CardState :=
  let cards := regGet s.abilityCards c
  let removed := regSet s.abilityCards c (cards.filter fun nc => ¬(nc.1 = name))
  match lookupCard cards name with
  | none => { s with abilityCards := removed }
  | some card =>
    let cm' : CMT := fun c' pt =>
      if c' = c ∧ pt = card.pieceType then
        (s.customMoves c' pt).map fun e =>
          ⟨subtractAll e.moves card.moves, subtractAll e.attacks card.attacks⟩
      else s.customMoves c' pt
    { abilityCards := removed, customMoves := cm' }

/-- `getInitialBoard()`'s back-rank array
`['rook','knight','bishop','queen','king','bishop','knight','rook']`. -/
def backRankType (x : Int) : Option PieceType :=
  if x = 0 ∨ x = 7 then some .rook
  else if x = 1 ∨ x = 6 then some .knight
  else if x = 2 ∨ x = 5 then some .bishop
  else if x = 3 then some .queen
  else if x = 4 then some .king
  else none

/-- `getInitialBoard()` (identical in both client revisions): black back rank
at `y = 0`, black pawns at `y = 1`, white pawns at `y = 6`, white back rank
at `y = 7`. -/
def getInitialBoard : Board := fun x y =>
  if 0 ≤ x ∧ x ≤ 7 then
    if y = 0 then (backRankType x).map fun t => ⟨.black, t, false⟩
    else if y = 1 then some ⟨.black, .pawn, false⟩
    else if y = 6 then some ⟨.white, .pawn, false⟩
    else if y = 7 then (backRankType x).map fun t => ⟨.white, t, false⟩
    else none
  else none

def flipColor : Color → Color
  | .white => .black
  | .black => .white

/-- `pieceSymbols = { king:'K', queen:'Q', rook:'R', bishop:'B', knight:'N', pawn:'' }` -/
def pieceSymbol : PieceType → String
  | .king => "K"
  | .queen => "Q"
  | .rook => "R"
  | .bishop => "B"
  | .knight => "N"
  | .pawn => ""

/-- The information content of one `addMoveToHistory` notation string
`symbol + from + ('x' | '-') + to`: piece symbol, from-square, capture flag,
to-square.  The square-to-text rendering (`files[x]` and `8 - y`) is a
bijection on the 8×8 grid, so keeping the squares unrendered preserves
exactly the recorded information. -/
structure MoveRecord where
  symbol : String
  fromSq : Int × Int
  capture : Bool
  toSq : Int × Int
deriving DecidableEq

def moveRecord (p : Piece) (fromSq toSq : Int × Int) (captured : Option Piece) :
    MoveRecord :=
  ⟨pieceSymbol p.type, fromSq, captured.isSome, toSq⟩

/-- One row of `this.moveHistory`: `{ number, white, black }`, with `none`
standing for the initial empty-string black half. -/
structure HRow where
  number : Nat
  white : Option MoveRecord
  black : Option MoveRecord
deriving DecidableEq

def setLastBlack : List HRow → MoveRecord → List HRow
  | [], _ => []
  | [r], n => [{ r with black := some n }]
  | r :: rs, n => r :: setLastBlack rs n

/-- `addMoveToHistory`: a white move pushes a fresh row; a black move fills
the `black` half of the last row when one exists. -/
def pushHist (hist : List HRow) (c : Color) (n : MoveRecord) : List HRow :=
  match c with
  | .white => hist ++ [⟨hist.length + 1, some n, none⟩]
  | .black => setLastBlack hist n

/-- `this.pendingPromotion = { x, y, piece, from, captured }` -/
structure Pending where
  x : Int
  y : Int
  piece : Piece
  fromSq : Int × Int
  captured : Option Piece
deriving DecidableEq

inductive Reason where
  | kingCaptured
  | checkmate
deriving DecidableEq

/-- A finished local game: `recordResult(color)`+`showGameOver(...)`, or the
stalemate draw. -/
inductive Outcome where
  | win (c : Color) (r : Reason)
  | drawStalemate
deriving DecidableEq

/-- The local-game slice of the `ChessGame` instance state that
`handleLocalClick` / `selectPromotion` read and write. -/
structure LState where
  board : Board
  currentPlayer : Color
  selectedPiece : Option (Int × Int)
  validMoves : List (Int × Int)
  validAttacks : List (Int × Int)
  customMoves : CMT
  pendingPromotion : Option Pending
  moveHistory : List HRow
  lastMove : Option ((Int × Int) × (Int × Int))
  gameOver : Option Outcome

/-- `captured && captured.type === 'king'` -/
def capturedIsKing : Option Piece → Bool
  | some p => decide (p.type = PieceType.king)
  | none => false

/-- The board mutation of a committed local move:
`board[sx][sy] = null; board[x][y] = piece; piece.moved = true;`. -/
def applyLocalMove (b : Board) (sx sy x y : Int) (piece : Piece) : Board :=
  setCell (setCell b sx sy none) x y (some { piece with moved := true })

/-- `deselectPiece()` (the state part: clear selection and candidate lists). -/
def deselect (s : LState) : LState :=
  { s with selectedPiece := none, validMoves := [], validAttacks := [] }

/-- The tail of `handleLocalClick` after a committed non-promotion move:
push the history row, clear the selection, flip the turn, then test the new
side to move for checkmate / stalemate. -/
def finishTurn (s1 : LState) (piece : Piece) (captured : Option Piece)
    (fromSq toSq : Int × Int) : LState :=
  let hist := pushHist s1.moveHistory piece.color (moveRecord piece fromSq toSq captured)
  let nextPlayer := flipColor s1.currentPlayer
  let base := { s1 with
    moveHistory := hist
    selectedPiece := none
    validMoves := []
    validAttacks := []
    currentPlayer := nextPlayer }
  if isCheckmate base.board nextPlayer then
    { base with gameOver := some (.win piece.color .checkmate) }
  else if isStalemate base.board nextPlayer then
    { base with gameOver := some .drawStalemate }
  else base

/-- The commit branch of `handleLocalClick`, entered when the clicked square
is among the stored candidates and the source square holds a piece: the
king-capture shortcut ends the game before any board mutation; a pawn landing
on the last rank stores `pendingPromotion` and returns without touching the
turn, the history, or the selection; otherwise the turn is finished. -/
def commitMove (s : LState) (sx sy x y : Int) (piece : Piece) : LState :=
  let captured := s.board x y
  if capturedIsKing captured then
    { s with gameOver := some (.win piece.color .kingCaptured) }
  else
    let movedPiece : Piece := { piece with moved := true }
    let s1 := { s with
      board := applyLocalMove s.board sx sy x y piece
      lastMove := some ((sx, sy), (x, y)) }
    if movedPiece.type = PieceType.pawn ∧ (y = 0 ∨ y = 7) then
      { s1 with pendingPromotion := some ⟨x, y, movedPiece, (sx, sy), captured⟩ }
    else finishTurn s1 movedPiece captured (sx, sy) (x, y)

/-- The selection branch of `handleLocalClick`: a clicked own piece is
selected and its candidate lists are computed (`calculateValidMoves` then
`filterMovesInCheck`, which threads the live board); anything else deselects. -/
def selectOrDeselect (s : LState) (x y : Int) : LState :=
  match s.board x y with
  | some p =>
    if p.color = s.currentPlayer then
      let cand := calculateValidMoves s.customMoves s.board x y
      let r := filterMovesInCheckS s.board x y cand.1 cand.2
      { s with
        selectedPiece := some (x, y)
        validMoves := r.1.1
        validAttacks := r.1.2
        board := r.2 }
    else deselect s
  | none => deselect s

/-- The commit branch when the stored selection points at an empty square
(possible only with a stale selection): the JS reads `piece = null`, the
king test short-circuits harmlessly, then `board[sx][sy] = null` and
`board[x][y] = piece` run before `piece.moved = true` throws a TypeError.
The state observable after the uncaught exception has the clicked cell
cleared and nothing else changed. -/
def staleCommit (s : LState) (sx sy x y : Int) : LState :=
  if capturedIsKing (s.board x y) then s
  else { s with board := setCell (setCell s.board sx sy none) x y none }

/-- `handleLocalClick(x, y)` of the final revision in `part_002`. -/
def handleLocalClick (s : LState) (x y : Int) : LState :=
  match s.selectedPiece with
  | some (sx, sy) =>
    if (x, y) ∈ s.validMoves ∨ (x, y) ∈ s.validAttacks then
      match s.board sx sy with
      | some piece => commitMove s sx sy x y piece
      | none => staleCommit s sx sy x y
    else selectOrDeselect s x y
  | none => selectOrDeselect s x y

/-- `selectPromotion(pieceType)`: overwrite `type` on the already-relocated
pawn (the board cell and `pendingPromotion.piece` are the same JS object),
log the move with the promoted symbol, clear the pending state, flip the
turn, and run the end-of-turn checks.  Note the source computes
`opponentColor` BEFORE flipping `currentPlayer`, so the checkmate /
stalemate tests here interrogate the side that just promoted. -/
def selectPromotion (s : LState) (t : PieceType) : LState :=
  match s.pendingPromotion with
  | none => s
  | some pp =>
    let newPiece : Piece := { pp.piece with type := t }
    let b' := setCell s.board pp.x pp.y (some newPiece)
    let hist := pushHist s.moveHistory newPiece.color
      (moveRecord newPiece pp.fromSq (pp.x, pp.y) pp.captured)
    let checkColor := s.currentPlayer
    let s1 := { s with
      board := b'
      pendingPromotion := none
      moveHistory := hist
      currentPlayer := flipColor s.currentPlayer }
    let s2 :=
      if isCheckmate b' checkColor then
        { s1 with gameOver := some (.win newPiece.color .checkmate) }
      else if isStalemate b' checkColor then
        { s1 with gameOver := some .drawStalemate }
      else s1
    { s2 with selectedPiece := none, validMoves := [], validAttacks := [] }

/-- The legality-filtered candidate lists a local selection produces in the
final `part_002` revision: `calculateValidMoves(x, y)` followed by
`filterMovesInCheck()`. -/
def legalLists (cm : CMT) (b : Board) (x y : Int) :
    List (Int × Int) × List (Int × Int) :=
  let cand := calculateValidMoves cm b x y
  (filterMovesInCheckS b x y cand.1 cand.2).1

namespace V25

/-- The local-game slice of the v2.5 `ChessGame` instance state. -/
structure GState where
  board : Chess.Board
  currentPlayer : Chess.Color
  selectedPiece : Option (Int × Int)
  validMoves : List (Int × Int)
  validAttacks : List (Int × Int)
  customMoves : Chess.CMT
  moveHistory : List Chess.HRow
  lastMove : Option ((Int × Int) × (Int × Int))

def deselect (s : GState) : GState :=
  { s with selectedPiece := none, validMoves := [], validAttacks := [] }

/-- The v2.5 commit: move the piece, auto-promote a last-rank pawn to a
queen, log, clear the selection, and flip the turn.  There is no king-capture
test, no promotion-pending state, and — crucially — no `isInCheck` /
`filterMovesInCheck` anywhere in this revision. -/
def commitMove (s : GState) (sx sy x y : Int) (piece : Chess.Piece) : GState :=
  let captured := s.board x y
  let p1 : Chess.Piece := { piece with moved := true }
  let p2 : Chess.Piece :=
    if p1.type = Chess.PieceType.pawn ∧ (y = 0 ∨ y = 7) then
      { p1 with type := Chess.PieceType.queen }
    else p1
  let b' := Chess.setCell (Chess.setCell s.board sx sy none) x y (some p2)
  { s with
    board := b'
    lastMove := some ((sx, sy), (x, y))
    moveHistory := Chess.pushHist s.moveHistory p2.color
      (Chess.moveRecord p2 (sx, sy) (x, y) captured)
    selectedPiece := none
    validMoves := []
    validAttacks := []
    currentPlayer := Chess.flipColor s.currentPlayer }

/-- The stale-selection commit (source square empty): as in the later
revision, the two board writes run before `piece.moved = true` throws. -/
def staleCommit (s : GState) (sx sy x y : Int) : GState :=
  { s with board := Chess.setCell (Chess.setCell s.board sx sy none) x y none }

/-- The v2.5 selection branch: select an own piece and store
`calculateValidMoves`' output UNFILTERED. -/
def selectOrDeselect (s : GState) (x y : Int) : GState :=
  match s.board x y with
  | some p =>
    if p.color = s.currentPlayer then
      let cand := Chess.calculateValidMoves s.customMoves s.board x y
      { s with selectedPiece := some (x, y), validMoves := cand.1, validAttacks := cand.2 }
    else deselect s
  | none => deselect s

/-- `handleLocalClick(x, y)` of `frontend-v2.5/game.js`. -/
def handleLocalClick (s : GState) (x y : Int) : GState :=
  match s.selectedPiece with
  | some (sx, sy) =>
    if (x, y) ∈ s.validMoves ∨ (x, y) ∈ s.validAttacks then
      match s.board sx sy with
      | some piece => commitMove s sx sy x y piece
      | none => staleCommit s sx sy x y
    else selectOrDeselect s x y
  | none => selectOrDeselect s x y

/-- `startLocalGame()`: fresh board, White to move, empty selection; the
custom-move table is the constructor's `{ white: {}, black: {} }` when
nothing was loaded from storage. -/
def startState : GState where
  board := Chess.getInitialBoard
  currentPlayer := .white
  selectedPiece := none
  validMoves := []
  validAttacks := []
  customMoves := fun _ _ => none
  moveHistory := []
  lastMove := none

/-- A local game as a click sequence from `startLocalGame()`. -/
def runClicks (clicks : List (Int × Int)) : GState :=
  clicks.foldl (fun s q => handleLocalClick s q.1 q.2) startState

end V25

/-- The constructor's `customMoves = { white: {}, black: {} }`. -/
def emptyCMT : CMT := fun _ _ => none

/-- C1 example registry: one enabled white-rook card whose attack offset
`(1, 1)` is the only custom entry. -/
def c1Reg : Registry := ⟨[(("diag"), ⟨.rook, some true, [], [(1, 1)]⟩)], []⟩

def c1CM : CMT := rebuildCustomMoves c1Reg

/-- C1 example board: white rook a8-corner, black king diagonally adjacent to
it, white king far away.  No base-geometry attack reaches the black king, but
the rook's card attack offset does. -/
def c1Board : Board := fun i j =>
  if i = 0 ∧ j = 0 then some ⟨.white, .rook, false⟩
  else if i = 1 ∧ j = 1 then some ⟨.black, .king, false⟩
  else if i = 7 ∧ j = 7 then some ⟨.white, .king, false⟩
  else none

/-- C2 example card: enabled, white rook, contributing the single move offset
`(1, 1)`. -/
def c2Card : Card := ⟨.rook, some true, [(1, 1)], []⟩

/-- C2 example registry: two enabled cards contributing the identical offset. -/
def c2Reg : Registry := ⟨[(("A"), c2Card), (("B"), c2Card)], []⟩

/-- C2 example state with the table derived from the registry. -/
def c2St : CardState := ⟨c2Reg, rebuildCustomMoves c2Reg⟩

/-- C4 witness registry and derived state. -/
def c4Reg : Registry :=
  ⟨[(("leap"), ⟨.knight, none, [(3, 3)], []⟩)], [(("slide"), ⟨.pawn, some true, [], [(0, 2)]⟩)]⟩

def c4St : CardState := ⟨c4Reg, rebuildCustomMoves c4Reg⟩

/-- C5 witness state A: a selected white pawn one step from the last rank. -/
def c5StateA : LState where
  board := fun i j => if i = 0 ∧ j = 1 then some ⟨.white, .pawn, true⟩ else none
  currentPlayer := .white
  selectedPiece := some (0, 1)
  validMoves := [(0, 0)]
  validAttacks := []
  customMoves := emptyCMT
  pendingPromotion := none
  moveHistory := []
  lastMove := none
  gameOver := none

/-- C5 witness state B: White to move, a black knight sitting on a square
that is in neither stored candidate list. -/
def c5StateB : LState where
  board := fun i j => if i = 5 ∧ j = 5 then some ⟨.black, .knight, false⟩ else none
  currentPlayer := .white
  selectedPiece := some (0, 1)
  validMoves := [(0, 0)]
  validAttacks := []
  customMoves := emptyCMT
  pendingPromotion := none
  moveHistory := []
  lastMove := none
  gameOver := none

/-- C5 witness state C: a pending promotion for the white pawn relocated to
`(2, 0)`. -/
def c5StateC : LState where
  board := fun i j => if i = 2 ∧ j = 0 then some ⟨.white, .pawn, true⟩ else none
  currentPlayer := .white
  selectedPiece := some (2, 1)
  validMoves := [(2, 0)]
  validAttacks := []
  customMoves := emptyCMT
  pendingPromotion := some ⟨2, 0, ⟨.white, .pawn, true⟩, (2, 1), none⟩
  moveHistory := []
  lastMove := none
  gameOver := none

/-- C6 witness state: a selected white rook with the black king's square in
its stored attack list. -/
def c6State : LState where
  board := fun i j =>
    if i = 0 ∧ j = 0 then some ⟨.white, .rook, true⟩
    else if i = 0 ∧ j = 3 then some ⟨.black, .king, false⟩
    else none
  currentPlayer := .white
  selectedPiece := some (0, 0)
  validMoves := []
  validAttacks := [(0, 3)]
  customMoves := emptyCMT
  pendingPromotion := none
  moveHistory := []
  lastMove := none
  gameOver := none

/-- C8 example pre-move board 1: white rook about to capture on `(0, 5)`,
where a black KNIGHT stands. -/
def c8B1 : Board := fun i j =>
  if i = 0 ∧ j = 0 then some ⟨.white, .rook, true⟩
  else if i = 0 ∧ j = 5 then some ⟨.black, .knight, true⟩
  else if i = 7 ∧ j = 7 then some ⟨.white, .king, true⟩
  else if i = 6 ∧ j = 2 then some ⟨.black, .king, true⟩
  else none

/-- C8 example pre-move board 2: identical except a black BISHOP stands on
`(0, 5)`. -/
def c8B2 : Board := fun i j =>
  if i = 0 ∧ j = 5 then some ⟨.black, .bishop, true⟩ else c8B1 i j

def c8Rook : Piece := ⟨.white, .rook, true⟩

/-- C10: the local game `e2–e4, f7–f5, Qd1–h5, a7–a6` as the v2.5 click
sequence (each move is a select click followed by a destination click). -/
def c10Clicks : List (Int × Int) :=
  [(4, 6), (4, 4), (5, 1), (5, 3), (3, 7), (7, 3), (0, 1), (0, 2)]

def c10Final : V25.GState := V25.runClicks c10Clicks

/-- The ray-direction list each sliding piece's switch case iterates. -/
def slideDirsOf : PieceType → List (Int × Int)
  | .rook => rookDirs
  | .bishop => bishopDirs
  | .queen => queenDirs
  | _ => []

/-- C7 witness board: a white rook on `(0, 0)` with two empty squares and a
black pawn on `(0, 3)` along the `(0, 1)` ray. -/
def c7Board : Board := fun i j =>
  if i = 0 ∧ j = 0 then some ⟨.white, .rook, false⟩
  else if i = 0 ∧ j = 3 then some ⟨.black, .pawn, false⟩
  else none

theorem trialStep_snd (b : Board) (c : Color) (sx sy mx my : Int) (p : Piece)
    (h : b sx sy = some p) : (trialStep b c sx sy mx my p).2 = b := by
  funext i j
  simp only [trialStep, setCell]
  by_cases hm : i = mx ∧ j = my
  · obtain ⟨h1, h2⟩ := hm
    subst h1
    subst h2
    simp
  · by_cases hs : i = sx ∧ j = sy
    · obtain ⟨h1, h2⟩ := hs
      subst h1
      subst h2
      simp [hm, h]
    · simp [hm, hs]

theorem tryCands_snd (b : Board) (c : Color) (sx sy : Int) (p : Piece)
    (l : List (Int × Int)) (h : b sx sy = some p) :
    (tryCands c sx sy p l b).2 = b := by
  induction l with
  | nil => rfl
  | cons hd rest ih =>
    obtain ⟨mx, my⟩ := hd
    simp only [tryCands]
    rw [trialStep_snd b c sx sy mx my p h]
    split
    · exact ih
    · rfl

theorem hvmGo_snd (c : Color) (l : List (Int × Int)) :
    ∀ b : Board, (hvmGo c l b).2 = b := by
  induction l with
  | nil => intro b; rfl
  | cons hd rest ih =>
    intro b
    obtain ⟨x, y⟩ := hd
    cases hb : b x y with
    | none => simp only [hvmGo, hb]; exact ih b
    | some p =>
      simp only [hvmGo, hb]
      by_cases hc : p.color = c
      · rw [if_pos hc, tryCands_snd b c x y p _ hb]
        split
        · rfl
        · exact ih b
      · rw [if_neg hc]; exact ih b

theorem filterCands_snd (b : Board) (c : Color) (sx sy : Int) (p : Piece)
    (l : List (Int × Int)) (h : b sx sy = some p) :
    (filterCands c sx sy p l b).2 = b := by
  induction l with
  | nil => rfl
  | cons hd rest ih =>
    obtain ⟨mx, my⟩ := hd
    simp only [filterCands]
    rw [trialStep_snd b c sx sy mx my p h]
    split
    · exact ih
    · exact ih

/-- C9: `hasValidMoves` and `filterMovesInCheck` mutate the live board inside
the king-safety simulation but restore both touched cells after every trial,
so each call leaves the board cell-for-cell as it found it; `isInCheck` only
reads the board, so in this embedding it is a pure function of it. -/
theorem check_queries_preserve_board :
    (∀ (b : Board) (c : Color), (hasValidMovesS b c).2 = b) ∧
    (∀ (b : Board) (sx sy : Int) (vm va : List (Int × Int)),
      (filterMovesInCheckS b sx sy vm va).2 = b) := by
  constructor
  · intro b c
    exact hvmGo_snd c allSquares b
  · intro b sx sy vm va
    unfold filterMovesInCheckS
    cases hb : b sx sy with
    | none => rfl
    | some p =>
      simp only
      rw [filterCands_snd b p.color sx sy p vm hb,
        filterCands_snd b p.color sx sy p va hb]

/-- C3: for every board and color, exactly one of `isCheckmate`,
`isStalemate`, `hasValidMoves` holds: the first is check with no surviving
move, the second no-check with no surviving move, and the third covers the
remaining case.  (The three predicates depend only on the board, so the
trichotomy holds whether or not the game is otherwise concluded.) -/
theorem mate_stalemate_hasmoves_trichotomy :
    ∀ (b : Board) (c : Color),
      (isCheckmate b c).toNat + (isStalemate b c).toNat + (hasValidMoves b c).toNat = 1 := by
  intro b c
  unfold isCheckmate isStalemate
  cases h1 : isInCheck b c <;> cases h2 : hasValidMoves b c <;> simp [h1, h2]

theorem enemyAttacksSq_eq_true (b : Board) (c : Color) (k q : Int × Int) :
    enemyAttacksSq b c k q = true ↔
      ∃ p, b q.1 q.2 = some p ∧ p.color = Color.opposite c ∧
        k ∈ (getPieceMoves b q.1 q.2).2 := by
  unfold enemyAttacksSq
  cases hq : b q.1 q.2 with
  | none => simp
  | some p => simp [hq]

/-- C1 (amended): `isInCheck(board, color)` is true iff some enemy piece's
BASE-geometry attack set (`getPieceMoves`, which never reads the
CustomMoveTable) contains the located king's square.  Ability-card attack
offsets are NOT consulted: `isInCheck` calls `getPieceMoves`, a separate
function from `calculateValidMoves`, and only the latter has the custom
section. -/
theorem isInCheck_iff_base_attack :
    ∀ (b : Board) (c : Color),
      isInCheck b c = true ↔
        ∃ k, findKing b c = some k ∧
          ∃ q p, q ∈ allSquares ∧ b q.1 q.2 = some p ∧
            p.color = Color.opposite c ∧ k ∈ (getPieceMoves b q.1 q.2).2 := by
  intro b c
  unfold isInCheck
  cases hk : findKing b c with
  | none => simp
  | some k =>
    simp only [List.any_eq_true, enemyAttacksSq_eq_true, Option.some.injEq]
    constructor
    · rintro ⟨q, hq, p, hp, hc, hm⟩
      exact ⟨k, rfl, q, p, hq, hp, hc, hm⟩
    · rintro ⟨k2, hk2, q, p, hq, hp, hc, hm⟩
      subst hk2
      exact ⟨q, hq, p, hp, hc, hm⟩

/-- C1 counterexample: with an enabled white-rook ability card granting the
attack offset `(1, 1)`, the rook's card-augmented attack set
(`calculateValidMoves`) contains the black king's square, yet
`isInCheck(black)` is false — card attacks are not part of check
detection, refuting the claimed iff. -/
theorem isInCheck_ignores_card_attacks :
    findKing c1Board Color.black = some (1, 1) ∧
    c1CM Color.white PieceType.rook = some ⟨[], [(1, 1)]⟩ ∧
    (1, 1) ∈ (calculateValidMoves c1CM c1Board 0 0).2 ∧
    isInCheck c1Board Color.black = false := by
  refine ⟨by decide, by decide, by decide, by decide⟩

theorem mem_subtractAll (o : Int × Int) :
    ∀ (os l : List (Int × Int)), o ∈ subtractAll l os ↔ o ∈ l ∧ o ∉ os := by
  intro os
  induction os with
  | nil => intro l; simp [subtractAll]
  | cons hd tl ih =>
    intro l
    have step : subtractAll l (hd :: tl) = subtractAll (l.filter fun m => ¬(m = hd)) tl := rfl
    rw [step, ih]
    simp only [List.mem_filter, List.mem_cons, decide_eq_true_eq, not_or]
    tauto

/-- C2 (amended): `deleteCard` removes the deleted card's offsets from the
table entry for its piece type by exact value: an offset survives iff it was
present before and is not among the deleted card's offsets.  In particular an
identical offset contributed by another still-enabled card is removed too
(the subtraction is not reference-counted), and only a later full rebuild
restores it. -/
theorem deleteCard_subtracts_by_value :
    ∀ (s : CardState) (c : Color) (name : String) (card : Card) (e : OffsetSets),
      lookupCard (regGet s.abilityCards c) name = some card →
      s.customMoves c card.pieceType = some e →
      ∃ e', (deleteCard s c name).customMoves c card.pieceType = some e' ∧
        (∀ o, o ∈ e'.moves ↔ o ∈ e.moves ∧ o ∉ card.moves) ∧
        (∀ o, o ∈ e'.attacks ↔ o ∈ e.attacks ∧ o ∉ card.attacks) := by
  intro s c name card e hl he
  simp only [deleteCard, hl]
  refine ⟨⟨subtractAll e.moves card.moves, subtractAll e.attacks card.attacks⟩, ?_, ?_, ?_⟩
  · simp [he]
  · intro o; exact mem_subtractAll o card.moves e.moves
  · intro o; exact mem_subtractAll o card.attacks e.attacks

theorem deleteCard_subtracts_by_value_witness :
    ∃ e', (deleteCard c2St Color.white ("A")).customMoves Color.white c2Card.pieceType = some e' ∧
      (∀ o, o ∈ e'.moves ↔ o ∈ OffsetSets.moves ⟨[(1, 1)], []⟩ ∧ o ∉ c2Card.moves) ∧
      (∀ o, o ∈ e'.attacks ↔ o ∈ OffsetSets.attacks ⟨[(1, 1)], []⟩ ∧ o ∉ c2Card.attacks) :=
  deleteCard_subtracts_by_value c2St Color.white ("A") c2Card ⟨[(1, 1)], []⟩
    (by decide) (by decide)

/-- C2 counterexample: cards `A` and `B` are both enabled, both for the white
rook, and both contribute the move offset `(1, 1)`; the derived table holds
that offset once.  Deleting `A` subtracts `(1, 1)` by value, so the offset
contributed by the still-enabled card `B` is gone from the table, refuting
the claimed invariant. -/
theorem deleteCard_removes_shared_offset :
    lookupCard c2Reg.white ("A") = some c2Card ∧
    lookupCard c2Reg.white ("B") = some c2Card ∧
    c2Card.enabled = some true ∧
    (1, 1) ∈ c2Card.moves ∧
    c2St.customMoves Color.white PieceType.rook = some ⟨[(1, 1)], []⟩ ∧
    (deleteCard c2St Color.white ("A")).customMoves Color.white PieceType.rook =
      some ⟨[], []⟩ := by
  refine ⟨by decide, by decide, by decide, by decide, by decide, by decide⟩

theorem flipEnabled_flip_flip_false_iff (e : Option Bool) :
    flipEnabled (flipEnabled e) = some false ↔ e = some false := by
  rcases e with _ | b
  · decide
  · cases b <;> decide

theorem toggleEntry_pos (name : String) (cd : Card) :
    toggleEntry name (name, cd) = (name, { cd with enabled := flipEnabled cd.enabled }) := by
  simp [toggleEntry]

theorem toggleEntry_neg (name n : String) (cd : Card) (h : ¬n = name) :
    toggleEntry name (n, cd) = (n, cd) := by
  simp [toggleEntry, h]

theorem lookupCard_map_toggleEntry (name : String) :
    ∀ cards, lookupCard (cards.map (toggleEntry name)) name =
      (lookupCard cards name).map fun cd => { cd with enabled := flipEnabled cd.enabled } := by
  intro cards
  induction cards with
  | nil => rfl
  | cons hd tl ih =>
    obtain ⟨n, cd⟩ := hd
    by_cases hn : n = name
    · subst hn
      rw [List.map_cons, toggleEntry_pos]
      simp [lookupCard]
    · rw [List.map_cons, toggleEntry_neg name n cd hn]
      simp [lookupCard, hn, ih]

theorem regGet_regSet_same (r : Registry) (c : Color) (l : List (String × Card)) :
    regGet (regSet r c l) c = l := by
  cases c <;> rfl

theorem regSet_regSet (r : Registry) (c : Color) (l1 l2 : List (String × Card)) :
    regSet (regSet r c l1) c l2 = regSet r c l2 := by
  cases c <;> rfl

theorem rebuildColorAux_toggle_twice (name : String) :
    ∀ (cards : List (String × Card)) (t : PieceType → Option OffsetSets),
      rebuildColorAux (cards.map fun nc => toggleEntry name (toggleEntry name nc)) t =
        rebuildColorAux cards t := by
  intro cards
  induction cards with
  | nil => intro t; rfl
  | cons hd tl ih =>
    intro t
    obtain ⟨n, cd⟩ := hd
    obtain ⟨pt, en, mv, atk⟩ := cd
    by_cases hn : n = name
    · subst hn
      have h2 : toggleEntry n (toggleEntry n (n, ⟨pt, en, mv, atk⟩)) =
          (n, ⟨pt, flipEnabled (flipEnabled en), mv, atk⟩) := by
        rw [toggleEntry_pos, toggleEntry_pos]
      simp only [List.map_cons]
      rw [h2]
      simp only [rebuildColorAux]
      by_cases hf : en = some false
      · rw [if_pos ((flipEnabled_flip_flip_false_iff en).mpr hf), if_pos hf]
        exact ih t
      · rw [if_neg (fun hh => hf ((flipEnabled_flip_flip_false_iff en).mp hh)), if_neg hf]
        exact ih (addCardOffsets t ⟨pt, en, mv, atk⟩)
    · have h2 : toggleEntry name (toggleEntry name (n, (⟨pt, en, mv, atk⟩ : Card))) =
          (n, ⟨pt, en, mv, atk⟩) := by
        rw [toggleEntry_neg name n _ hn, toggleEntry_neg name n _ hn]
      simp only [List.map_cons]
      rw [h2]
      simp only [rebuildColorAux]
      exact ih _

theorem rebuild_regSet_toggle_twice (r : Registry) (c : Color) (name : String) :
    rebuildCustomMoves
        (regSet r c ((regGet r c).map fun nc => toggleEntry name (toggleEntry name nc))) =
      rebuildCustomMoves r := by
  funext c'
  cases c <;> cases c' <;>
    simp [rebuildCustomMoves, regSet, regGet, rebuildColor, rebuildColorAux_toggle_twice]

/-- C4: toggling a card twice returns the CustomMoveTable to its original
derived state.  Each local toggle rebuilds the whole table from the registry;
the double flip normalizes a missing `enabled` key to `true`, but rebuild
only distinguishes `enabled === false`, so the rebuilt table coincides with
the original derived one. -/
theorem toggleCard_twice_restores_table :
    ∀ (s : CardState) (c : Color) (name : String),
      s.customMoves = rebuildCustomMoves s.abilityCards →
      (toggleCard (toggleCard s c name) c name).customMoves = s.customMoves := by
  intro s c name h
  cases hl : lookupCard (regGet s.abilityCards c) name with
  | none =>
    have e1 : toggleCard s c name = s := by
      unfold toggleCard
      rw [hl]
    rw [e1, e1]
  | some cd0 =>
    have e1 : toggleCard s c name =
        { abilityCards := regSet s.abilityCards c ((regGet s.abilityCards c).map (toggleEntry name)),
          customMoves := rebuildCustomMoves
            (regSet s.abilityCards c ((regGet s.abilityCards c).map (toggleEntry name))) } := by
      unfold toggleCard
      rw [hl]
    rw [e1]
    have hl2 : lookupCard
        (regGet (regSet s.abilityCards c ((regGet s.abilityCards c).map (toggleEntry name))) c)
        name = some { cd0 with enabled := flipEnabled cd0.enabled } := by
      rw [regGet_regSet_same, lookupCard_map_toggleEntry, hl]
      rfl
    unfold toggleCard
    rw [hl2]
    simp only [regGet_regSet_same, regSet_regSet, List.map_map]
    have hcomp : (regGet s.abilityCards c).map (toggleEntry name ∘ toggleEntry name) =
        (regGet s.abilityCards c).map fun nc => toggleEntry name (toggleEntry name nc) := rfl
    rw [hcomp, rebuild_regSet_toggle_twice, h]

theorem toggleCard_twice_restores_table_witness :
    (toggleCard (toggleCard c4St Color.white ("leap")) Color.white ("leap")).customMoves =
      c4St.customMoves :=
  toggleCard_twice_restores_table c4St Color.white ("leap") rfl

/-- C6: when the clicked destination is a stored candidate and holds the
opponent's king, `handleLocalClick` ends the game in favor of the moving
piece's color and changes NOTHING else: the resulting state is the input
state with only `gameOver` set (the king-capture branch returns before the
board mutation, the history push, the turn flip, and the checkmate /
stalemate computations). -/
theorem king_capture_ends_game :
    ∀ (s : LState) (sx sy x y : Int) (piece cap : Piece),
      s.selectedPiece = some (sx, sy) →
      ((x, y) ∈ s.validMoves ∨ (x, y) ∈ s.validAttacks) →
      s.board sx sy = some piece →
      s.board x y = some cap →
      cap.type = PieceType.king →
      handleLocalClick s x y =
        { s with gameOver := some (.win piece.color .kingCaptured) } := by
  intro s sx sy x y piece cap hsel hmem hb hcap hking
  have hck : capturedIsKing (s.board x y) = true := by
    rw [hcap]
    simp [capturedIsKing, hking]
  simp only [handleLocalClick, hsel, hb, commitMove, hck]
  rw [if_pos hmem]
  simp

theorem king_capture_ends_game_witness :
    handleLocalClick c6State 0 3 =
      { c6State with gameOver := some (.win Color.white .kingCaptured) } :=
  king_capture_ends_game c6State 0 0 0 3 ⟨.white, .rook, true⟩ ⟨.black, .king, false⟩
    rfl (by decide) rfl rfl rfl

/-- C5: (1) a committed local move that lands a pawn on the farthest rank
(and does not capture a king) leaves `currentPlayer`, the move history, and
`gameOver` untouched and records the pending promotion; (2) a click on an
opponent piece that is not a stored candidate destination merely deselects —
an opponent piece can never be selected while the promotion (or anything
else) is pending, because selection requires the clicked piece's color to
equal the unchanged `currentPlayer`; (3) `selectPromotion` overwrites the
relocated pawn's `type` in place on its square, clears the pending state,
and passes the turn. -/
theorem promotion_pending_blocks_turn :
    (∀ (s : LState) (sx sy x y : Int) (piece : Piece),
      s.selectedPiece = some (sx, sy) →
      ((x, y) ∈ s.validMoves ∨ (x, y) ∈ s.validAttacks) →
      s.board sx sy = some piece →
      capturedIsKing (s.board x y) = false →
      piece.type = PieceType.pawn →
      (y = 0 ∨ y = 7) →
      (handleLocalClick s x y).currentPlayer = s.currentPlayer ∧
      (handleLocalClick s x y).moveHistory = s.moveHistory ∧
      (handleLocalClick s x y).gameOver = s.gameOver ∧
      (handleLocalClick s x y).pendingPromotion =
        some ⟨x, y, { piece with moved := true }, (sx, sy), s.board x y⟩) ∧
    (∀ (s : LState) (x y : Int) (p : Piece),
      s.board x y = some p →
      p.color ≠ s.currentPlayer →
      (x, y) ∉ s.validMoves →
      (x, y) ∉ s.validAttacks →
      handleLocalClick s x y = deselect s) ∧
    (∀ (s : LState) (pp : Pending) (t : PieceType),
      s.pendingPromotion = some pp →
      (selectPromotion s t).board pp.x pp.y = some { pp.piece with type := t } ∧
      (selectPromotion s t).currentPlayer = flipColor s.currentPlayer ∧
      (selectPromotion s t).pendingPromotion = none) := by
  refine ⟨?_, ?_, ?_⟩
  · intro s sx sy x y piece hsel hmem hb hck hpawn hy
    have hptype : ({ piece with moved := true } : Piece).type = PieceType.pawn := hpawn
    simp only [handleLocalClick, hsel, hb, commitMove, hck]
    rw [if_pos hmem, if_neg (by simp), if_pos ⟨hptype, hy⟩]
    simp
  · intro s x y p hb hcol hnm hna
    have hnot : ¬((x, y) ∈ s.validMoves ∨ (x, y) ∈ s.validAttacks) := by
      intro h
      cases h with
      | inl h => exact hnm h
      | inr h => exact hna h
    cases hsel : s.selectedPiece with
    | none =>
      simp only [handleLocalClick, hsel, selectOrDeselect, hb]
      rw [if_neg hcol]
    | some q =>
      obtain ⟨sx, sy⟩ := q
      simp only [handleLocalClick, hsel]
      rw [if_neg hnot]
      simp only [selectOrDeselect, hb]
      rw [if_neg hcol]
  · intro s pp t hpp
    simp only [selectPromotion, hpp]
    refine ⟨?_, ?_, ?_⟩
    · split <;> [skip; split] <;> simp [setCell]
    · split <;> [skip; split] <;> simp
    · split <;> [skip; split] <;> simp

theorem promotion_pending_blocks_turn_witness :
    ((handleLocalClick c5StateA 0 0).currentPlayer = c5StateA.currentPlayer ∧
      (handleLocalClick c5StateA 0 0).moveHistory = c5StateA.moveHistory ∧
      (handleLocalClick c5StateA 0 0).gameOver = c5StateA.gameOver ∧
      (handleLocalClick c5StateA 0 0).pendingPromotion =
        some ⟨0, 0, ⟨.white, .pawn, true⟩, (0, 1), c5StateA.board 0 0⟩) ∧
    (handleLocalClick c5StateB 5 5 = deselect c5StateB) ∧
    ((selectPromotion c5StateC PieceType.queen).board 2 0 =
        some ⟨.white, .queen, true⟩ ∧
      (selectPromotion c5StateC PieceType.queen).currentPlayer =
        flipColor c5StateC.currentPlayer ∧
      (selectPromotion c5StateC PieceType.queen).pendingPromotion = none) := by
  refine ⟨?_, ?_, ?_⟩
  · exact promotion_pending_blocks_turn.1 c5StateA 0 1 0 0 ⟨.white, .pawn, true⟩
      rfl (by decide) rfl (by decide) rfl (by decide)
  · exact promotion_pending_blocks_turn.2.1 c5StateB 5 5 ⟨.black, .knight, false⟩
      rfl (by decide) (by decide) (by decide)
  · exact promotion_pending_blocks_turn.2.2 c5StateC ⟨2, 0, ⟨.white, .pawn, true⟩, (2, 1), none⟩
      PieceType.queen rfl

/-- C8 counterexample: two distinct pre-move boards (a black knight vs. a
black bishop on the captured square) admit the same legal rook capture,
produce cell-for-cell identical post-move boards, and produce identical
moveLog entries (the entry records only piece symbol, from-square, capture
flag, and to-square — not WHICH piece was captured).  Hence no inversion
driven by the moveLog entry can reconstruct the pre-move board. -/
theorem moveLog_entry_loses_captured_piece :
    ((0, 5) ∈ (legalLists emptyCMT c8B1 0 0).2) ∧
    ((0, 5) ∈ (legalLists emptyCMT c8B2 0 0).2) ∧
    c8B1 0 0 = some c8Rook ∧
    c8B2 0 0 = some c8Rook ∧
    (∀ i j : Fin 8,
      applyLocalMove c8B1 0 0 0 5 c8Rook ((i : Nat) : Int) ((j : Nat) : Int) =
        applyLocalMove c8B2 0 0 0 5 c8Rook ((i : Nat) : Int) ((j : Nat) : Int)) ∧
    moveRecord c8Rook (0, 0) (0, 5) (c8B1 0 5) =
      moveRecord c8Rook (0, 0) (0, 5) (c8B2 0 5) ∧
    c8B1 0 5 ≠ c8B2 0 5 := by
  refine ⟨by decide, by decide, by decide, by decide, by decide, by decide, by decide⟩

/-- C8 (amended): the moveLog entry does not determine the pre-move board.
There are two distinct boards on which the same move is legal, whose
post-move boards are equal as functions and whose log entries coincide, so
no reconstruction from the post-move board and the logged data can recover
the pre-move board in general: the captured piece's identity is not
recorded. -/
theorem moveLog_roundtrip_impossible :
    ∃ (bA bB : Board) (sx sy x y : Int) (p : Piece),
      bA ≠ bB ∧
      bA sx sy = some p ∧ bB sx sy = some p ∧
      ((x, y) ∈ (legalLists emptyCMT bA sx sy).2) ∧
      ((x, y) ∈ (legalLists emptyCMT bB sx sy).2) ∧
      applyLocalMove bA sx sy x y p = applyLocalMove bB sx sy x y p ∧
      moveRecord p (sx, sy) (x, y) (bA x y) = moveRecord p (sx, sy) (x, y) (bB x y) := by
  refine ⟨c8B1, c8B2, 0, 0, 0, 5, c8Rook, ?_, by decide, by decide, by decide, by decide, ?_, by decide⟩
  · intro h
    have h05 : c8B1 0 5 = c8B2 0 5 := congrFun (congrFun h 0) 5
    exact absurd h05 (by decide)
  · funext i j
    simp only [applyLocalMove, setCell]
    by_cases h1 : i = 0 ∧ j = 5
    · simp [h1]
    · by_cases h2 : i = 0 ∧ j = 0
      · simp [h1, h2]
      · have hb : c8B2 i j = c8B1 i j := by
          simp only [c8B2]
          rw [if_neg h1]
        simp [h1, h2, hb]

/-- C10: in the v2.5 client, (1) selecting an own piece stores exactly
`calculateValidMoves`' two output lists with no king-safety filtering (there
is no `filterMovesInCheck` in that revision), and a subsequent click commits
exactly the destinations in those lists; (2) consequently a reachable local
game has a committed move that leaves the moving side's own king attacked:
after `e2–e4, f7–f5, Qd1–h5, a7–a6`, Black has just committed `a7–a6` while
the white queen on `(7, 3)` holds the black king's square `(4, 0)` in its
attack set. -/
theorem v25_no_king_safety_filter :
    (∀ (s : V25.GState) (x y : Int) (p : Piece),
      s.selectedPiece = none →
      s.board x y = some p →
      p.color = s.currentPlayer →
      (V25.handleLocalClick s x y).selectedPiece = some (x, y) ∧
      (V25.handleLocalClick s x y).validMoves =
        (calculateValidMoves s.customMoves s.board x y).1 ∧
      (V25.handleLocalClick s x y).validAttacks =
        (calculateValidMoves s.customMoves s.board x y).2) ∧
    ((V25.runClicks [(4, 6), (4, 4), (5, 1), (5, 3), (3, 7), (7, 3), (0, 1)]).currentPlayer =
        Color.black ∧
      c10Final.currentPlayer = Color.white ∧
      c10Final.board 0 1 = none ∧
      c10Final.board 0 2 = some ⟨.black, .pawn, true⟩ ∧
      c10Final.board 4 0 = some ⟨.black, .king, false⟩ ∧
      c10Final.board 7 3 = some ⟨.white, .queen, true⟩ ∧
      (4, 0) ∈ (getPieceMoves c10Final.board 7 3).2 ∧
      (4, 0) ∈ (calculateValidMoves c10Final.customMoves c10Final.board 7 3).2) := by
  constructor
  · intro s x y p hsel hb hc
    simp only [V25.handleLocalClick, hsel, V25.selectOrDeselect, hb]
    rw [if_pos hc]
    exact ⟨rfl, rfl, rfl⟩
  · refine ⟨by decide, by decide, by decide, by decide, by decide, by decide, by decide, by decide⟩

theorem v25_no_king_safety_filter_witness :
    (V25.handleLocalClick V25.startState 4 6).selectedPiece = some (4, 6) ∧
    (V25.handleLocalClick V25.startState 4 6).validMoves =
      (calculateValidMoves V25.startState.customMoves V25.startState.board 4 6).1 ∧
    (V25.handleLocalClick V25.startState 4 6).validAttacks =
      (calculateValidMoves V25.startState.customMoves V25.startState.board 4 6).2 :=
  v25_no_king_safety_filter.1 V25.startState 4 6 ⟨.white, .pawn, false⟩ rfl (by decide) rfl

theorem queenDirs_ne_zero : ∀ d ∈ queenDirs, ¬(d.1 = 0 ∧ d.2 = 0) := by decide

theorem rayPos_inj (dx dy : Int) (hnz : ¬(dx = 0 ∧ dy = 0)) (x y : Int) (i j : Nat)
    (h : (x + dx * (i : Int), y + dy * (i : Int)) = (x + dx * (j : Int), y + dy * (j : Int))) :
    i = j := by
  have h1 : dx * (i : Int) = dx * (j : Int) := by
    have := congrArg Prod.fst h
    simpa using this
  have h2 : dy * (i : Int) = dy * (j : Int) := by
    have := congrArg Prod.snd h
    simpa using this
  rcases not_and_or.mp hnz with hdx | hdy
  · exact_mod_cast mul_left_cancel₀ hdx h1
  · exact_mod_cast mul_left_cancel₀ hdy h2

theorem rayWalk_shape (b : Board) (pc : Color) (dx dy : Int) :
    ∀ (n : Nat) (x y : Int) (a : Int × Int),
      (a ∈ (rayWalk b pc n x y dx dy).1 ∨ a ∈ (rayWalk b pc n x y dx dy).2) →
      ∃ k : Nat, 1 ≤ k ∧ k ≤ n ∧ a = (x + dx * (k : Int), y + dy * (k : Int)) := by
  intro n
  induction n with
  | zero =>
    intro x y a h
    simp [rayWalk] at h
  | succ n ih =>
    intro x y a h
    by_cases hin : inBoard (x + dx) (y + dy) = true
    · cases hb : b (x + dx) (y + dy) with
      | none =>
        have hstep : rayWalk b pc (n + 1) x y dx dy =
            ((x + dx, y + dy) :: (rayWalk b pc n (x + dx) (y + dy) dx dy).1,
              (rayWalk b pc n (x + dx) (y + dy) dx dy).2) := by
          simp [rayWalk, hin, hb]
        rw [hstep] at h
        rcases h with h | h
        · rcases List.mem_cons.mp h with h | h
          · exact ⟨1, le_refl 1, by omega, by simpa using h⟩
          · obtain ⟨k, hk1, hk2, hk3⟩ := ih (x + dx) (y + dy) a (Or.inl h)
            refine ⟨k + 1, by omega, by omega, ?_⟩
            rw [hk3]
            simp only [Prod.mk.injEq]
            constructor <;> (push_cast; ring)
        · obtain ⟨k, hk1, hk2, hk3⟩ := ih (x + dx) (y + dy) a (Or.inr h)
          refine ⟨k + 1, by omega, by omega, ?_⟩
          rw [hk3]
          simp only [Prod.mk.injEq]
          constructor <;> (push_cast; ring)
      | some t =>
        by_cases ht : t.color = pc
        · have hstep : rayWalk b pc (n + 1) x y dx dy = ([], []) := by
            simp [rayWalk, hin, hb, ht]
          rw [hstep] at h
          simp at h
        · have hstep : rayWalk b pc (n + 1) x y dx dy = ([], [(x + dx, y + dy)]) := by
            simp [rayWalk, hin, hb, ht]
          rw [hstep] at h
          rcases h with h | h
          · simp at h
          · refine ⟨1, le_refl 1, by omega, ?_⟩
            simpa using List.mem_singleton.mp h
    · have hstep : rayWalk b pc (n + 1) x y dx dy = ([], []) := by
        simp [rayWalk, hin]
      rw [hstep] at h
      simp at h

theorem forall_range_split (P : Nat → Prop) (i : Nat) (h : 1 ≤ i) :
    (∀ j, 1 ≤ j → j ≤ i → P j) ↔ (P 1 ∧ ∀ j, 1 ≤ j → j ≤ i - 1 → P (j + 1)) := by
  constructor
  · intro hall
    exact ⟨hall 1 (le_refl 1) h, fun j hj1 hj2 => hall (j + 1) (by omega) (by omega)⟩
  · rintro ⟨h1, hrest⟩ j hj1 hj2
    by_cases hj : j = 1
    · subst hj; exact h1
    · have hr := hrest (j - 1) (by omega) (by omega)
      have hj1' : j - 1 + 1 = j := by omega
      rwa [hj1'] at hr

theorem forall_range_split_lt (P : Nat → Prop) (i : Nat) (h : 2 ≤ i) :
    (∀ j, 1 ≤ j → j < i → P j) ↔ (P 1 ∧ ∀ j, 1 ≤ j → j < i - 1 → P (j + 1)) := by
  constructor
  · intro hall
    exact ⟨hall 1 (le_refl 1) (by omega), fun j hj1 hj2 => hall (j + 1) (by omega) (by omega)⟩
  · rintro ⟨h1, hrest⟩ j hj1 hj2
    by_cases hj : j = 1
    · subst hj; exact h1
    · have hr := hrest (j - 1) (by omega) (by omega)
      have hj1' : j - 1 + 1 = j := by omega
      rwa [hj1'] at hr

theorem rayWalk_mem_iff (b : Board) (pc : Color) (dx dy : Int)
    (hnz : ¬(dx = 0 ∧ dy = 0)) :
    ∀ (n : Nat) (x y : Int) (i : Nat), 1 ≤ i → i ≤ n →
      (((x + dx * (i : Int), y + dy * (i : Int)) ∈ (rayWalk b pc n x y dx dy).1) ↔
        (∀ j : Nat, 1 ≤ j → j ≤ i →
          inBoard (x + dx * (j : Int)) (y + dy * (j : Int)) = true ∧
            b (x + dx * (j : Int)) (y + dy * (j : Int)) = none)) ∧
      (((x + dx * (i : Int), y + dy * (i : Int)) ∈ (rayWalk b pc n x y dx dy).2) ↔
        ((∀ j : Nat, 1 ≤ j → j < i →
          inBoard (x + dx * (j : Int)) (y + dy * (j : Int)) = true ∧
            b (x + dx * (j : Int)) (y + dy * (j : Int)) = none) ∧
          inBoard (x + dx * (i : Int)) (y + dy * (i : Int)) = true ∧
          ∃ t, b (x + dx * (i : Int)) (y + dy * (i : Int)) = some t ∧ t.color ≠ pc)) := by
  intro n
  induction n with
  | zero =>
    intro x y i h1 h2
    omega
  | succ n ih =>
    intro x y i h1 h2
    have hpos1x : x + dx * ((1 : Nat) : Int) = x + dx := by push_cast; ring
    have hpos1y : y + dy * ((1 : Nat) : Int) = y + dy := by push_cast; ring
    by_cases hin : inBoard (x + dx) (y + dy) = true
    · cases hb : b (x + dx) (y + dy) with
      | some t =>
        by_cases ht : t.color = pc
        · have hstep : rayWalk b pc (n + 1) x y dx dy = ([], []) := by
            simp [rayWalk, hin, hb, ht]
          rw [hstep]
          constructor
          · refine iff_of_false (by simp) ?_
            intro hall
            have hc := (hall 1 (le_refl 1) h1).2
            rw [hpos1x, hpos1y, hb] at hc
            cases hc
          · refine iff_of_false (by simp) ?_
            rintro ⟨hpre, hini, t', hbt', hct'⟩
            by_cases hi1 : i = 1
            · subst hi1
              rw [hpos1x, hpos1y, hb] at hbt'
              cases hbt'
              exact hct' ht
            · have hc := (hpre 1 (le_refl 1) (by omega)).2
              rw [hpos1x, hpos1y, hb] at hc
              cases hc
        · have hstep : rayWalk b pc (n + 1) x y dx dy = ([], [(x + dx, y + dy)]) := by
            simp [rayWalk, hin, hb, ht]
          rw [hstep]
          constructor
          · refine iff_of_false (by simp) ?_
            intro hall
            have hc := (hall 1 (le_refl 1) h1).2
            rw [hpos1x, hpos1y, hb] at hc
            cases hc
          · by_cases hi1 : i = 1
            · subst hi1
              refine iff_of_true ?_ ⟨fun j hj1 hj2 => by omega, ?_, t, ?_, ht⟩
              · rw [hpos1x, hpos1y]
                simp
              · rw [hpos1x, hpos1y]; exact hin
              · rw [hpos1x, hpos1y]; exact hb
            · refine iff_of_false ?_ ?_
              · intro hmem
                have heq := List.mem_singleton.mp hmem
                have heq' : (x + dx * ((i : Nat) : Int), y + dy * ((i : Nat) : Int)) =
                    (x + dx * ((1 : Nat) : Int), y + dy * ((1 : Nat) : Int)) := by
                  rw [hpos1x, hpos1y]; exact heq
                exact hi1 (rayPos_inj dx dy hnz x y i 1 heq')
              · rintro ⟨hpre, hini, t', hbt', hct'⟩
                have hc := (hpre 1 (le_refl 1) (by omega)).2
                rw [hpos1x, hpos1y, hb] at hc
                cases hc
      | none =>
        have hstep : rayWalk b pc (n + 1) x y dx dy =
            ((x + dx, y + dy) :: (rayWalk b pc n (x + dx) (y + dy) dx dy).1,
              (rayWalk b pc n (x + dx) (y + dy) dx dy).2) := by
          simp [rayWalk, hin, hb]
        rw [hstep]
        by_cases hi1 : i = 1
        · subst hi1
          constructor
          · refine iff_of_true ?_ ?_
            · simp only [List.mem_cons]
              left
              rw [hpos1x, hpos1y]
            · intro j hj1 hj2
              have hj : j = 1 := by omega
              subst hj
              rw [hpos1x, hpos1y]
              exact ⟨hin, hb⟩
          · refine iff_of_false ?_ ?_
            · intro hmem
              obtain ⟨k, hk1, hk2, hk3⟩ :=
                rayWalk_shape b pc dx dy n (x + dx) (y + dy) _ (Or.inr hmem)
              have hk3' : (x + dx * ((1 : Nat) : Int), y + dy * ((1 : Nat) : Int)) =
                  (x + dx * ((k + 1 : Nat) : Int), y + dy * ((k + 1 : Nat) : Int)) := by
                rw [hk3]
                simp only [Prod.mk.injEq]
                constructor <;> (push_cast; ring)
              have hk0 := rayPos_inj dx dy hnz x y 1 (k + 1) hk3'
              omega
            · rintro ⟨hpre, hini, t', hbt', hct'⟩
              rw [hpos1x, hpos1y, hb] at hbt'
              cases hbt'
        · have hi2 : 2 ≤ i := by omega
          have ihm := ih (x + dx) (y + dy) (i - 1) (by omega) (by omega)
          have hbx : (x + dx) + dx * ((i - 1 : Nat) : Int) = x + dx * ((i : Nat) : Int) := by
            have hc : ((i - 1 : Nat) : Int) = (i : Int) - 1 := by omega
            rw [hc]; ring
          have hby : (y + dy) + dy * ((i - 1 : Nat) : Int) = y + dy * ((i : Nat) : Int) := by
            have hc : ((i - 1 : Nat) : Int) = (i : Int) - 1 := by omega
            rw [hc]; ring
          rw [hbx, hby] at ihm
          have hp1 : inBoard (x + dx * ((1 : Nat) : Int)) (y + dy * ((1 : Nat) : Int)) = true ∧
              b (x + dx * ((1 : Nat) : Int)) (y + dy * ((1 : Nat) : Int)) = none := by
            rw [hpos1x, hpos1y]
            exact ⟨hin, hb⟩
          have hshift : ∀ j : Nat,
              (inBoard ((x + dx) + dx * (j : Int)) ((y + dy) + dy * (j : Int)) = true ∧
                b ((x + dx) + dx * (j : Int)) ((y + dy) + dy * (j : Int)) = none) ↔
              (inBoard (x + dx * ((j + 1 : Nat) : Int)) (y + dy * ((j + 1 : Nat) : Int)) = true ∧
                b (x + dx * ((j + 1 : Nat) : Int)) (y + dy * ((j + 1 : Nat) : Int)) = none) := by
            intro j
            have hx : (x + dx) + dx * (j : Int) = x + dx * ((j + 1 : Nat) : Int) := by
              push_cast; ring
            have hy : (y + dy) + dy * (j : Int) = y + dy * ((j + 1 : Nat) : Int) := by
              push_cast; ring
            rw [hx, hy]
          have hne : ¬((x + dx * ((i : Nat) : Int), y + dy * ((i : Nat) : Int)) =
              (x + dx, y + dy)) := by
            intro heq
            have heq' : (x + dx * ((i : Nat) : Int), y + dy * ((i : Nat) : Int)) =
                (x + dx * ((1 : Nat) : Int), y + dy * ((1 : Nat) : Int)) := by
              rw [hpos1x, hpos1y]; exact heq
            exact hi1 (rayPos_inj dx dy hnz x y i 1 heq')
          constructor
          · have hL : ((x + dx * ((i : Nat) : Int), y + dy * ((i : Nat) : Int)) ∈
                ((x + dx, y + dy) :: (rayWalk b pc n (x + dx) (y + dy) dx dy).1)) ↔
                ((x + dx * ((i : Nat) : Int), y + dy * ((i : Nat) : Int)) ∈
                  (rayWalk b pc n (x + dx) (y + dy) dx dy).1) := by
              simp only [List.mem_cons]
              constructor
              · rintro (heq | hm)
                · exact absurd heq hne
                · exact hm
              · exact Or.inr
            have hP' : (∀ j, 1 ≤ j → j ≤ i - 1 →
                (inBoard ((x + dx) + dx * (j : Int)) ((y + dy) + dy * (j : Int)) = true ∧
                  b ((x + dx) + dx * (j : Int)) ((y + dy) + dy * (j : Int)) = none)) ↔
                (∀ j, 1 ≤ j → j ≤ i - 1 →
                  (inBoard (x + dx * ((j + 1 : Nat) : Int)) (y + dy * ((j + 1 : Nat) : Int)) = true ∧
                    b (x + dx * ((j + 1 : Nat) : Int)) (y + dy * ((j + 1 : Nat) : Int)) = none)) :=
              forall_congr' fun j => imp_congr_right fun _ => imp_congr_right fun _ => hshift j
            refine Iff.trans hL (Iff.trans ihm.1 (Iff.trans hP' ?_))
            refine Iff.symm (Iff.trans (forall_range_split
              (fun j => inBoard (x + dx * ((j : Nat) : Int)) (y + dy * ((j : Nat) : Int)) = true ∧
                b (x + dx * ((j : Nat) : Int)) (y + dy * ((j : Nat) : Int)) = none) i h1) ?_)
            exact and_iff_right hp1
          · have hP' : (∀ j, 1 ≤ j → j < i - 1 →
                (inBoard ((x + dx) + dx * (j : Int)) ((y + dy) + dy * (j : Int)) = true ∧
                  b ((x + dx) + dx * (j : Int)) ((y + dy) + dy * (j : Int)) = none)) ↔
                (∀ j, 1 ≤ j → j < i - 1 →
                  (inBoard (x + dx * ((j + 1 : Nat) : Int)) (y + dy * ((j + 1 : Nat) : Int)) = true ∧
                    b (x + dx * ((j + 1 : Nat) : Int)) (y + dy * ((j + 1 : Nat) : Int)) = none)) :=
              forall_congr' fun j => imp_congr_right fun _ => imp_congr_right fun _ => hshift j
            refine Iff.trans ihm.2 ?_
            refine and_congr ?_ Iff.rfl
            refine Iff.trans hP' ?_
            refine Iff.symm (Iff.trans (forall_range_split_lt
              (fun j => inBoard (x + dx * ((j : Nat) : Int)) (y + dy * ((j : Nat) : Int)) = true ∧
                b (x + dx * ((j : Nat) : Int)) (y + dy * ((j : Nat) : Int)) = none) i hi2) ?_)
            exact and_iff_right hp1
    · have hstep : rayWalk b pc (n + 1) x y dx dy = ([], []) := by
        simp [rayWalk, hin]
      rw [hstep]
      constructor
      · refine iff_of_false (by simp) ?_
        intro hall
        have hc := (hall 1 (le_refl 1) h1).1
        rw [hpos1x, hpos1y] at hc
        exact hin hc
      · refine iff_of_false (by simp) ?_
        rintro ⟨hpre, hini, -⟩
        by_cases hi1 : i = 1
        · subst hi1
          rw [hpos1x, hpos1y] at hini
          exact hin hini
        · have hc := (hpre 1 (le_refl 1) (by omega)).1
          rw [hpos1x, hpos1y] at hc
          exact hin hc

theorem slideAll_mem (b : Board) (pc : Color) (x y : Int) :
    ∀ (dirs : List (Int × Int)) (a : Int × Int),
      (a ∈ (slideAll b pc x y dirs).1 ↔
        ∃ d, d ∈ dirs ∧ a ∈ (rayWalk b pc 7 x y d.1 d.2).1) ∧
      (a ∈ (slideAll b pc x y dirs).2 ↔
        ∃ d, d ∈ dirs ∧ a ∈ (rayWalk b pc 7 x y d.1 d.2).2) := by
  intro dirs
  induction dirs with
  | nil => intro a; simp [slideAll]
  | cons d ds ih =>
    intro a
    constructor
    · simp only [slideAll, List.mem_append]
      rw [(ih a).1]
      constructor
      · rintro (h | ⟨d', hd', h⟩)
        · exact ⟨d, List.mem_cons_self d ds, h⟩
        · exact ⟨d', List.mem_cons_of_mem d hd', h⟩
      · rintro ⟨d', hd', h⟩
        rcases List.mem_cons.mp hd' with rfl | hd'
        · exact Or.inl h
        · exact Or.inr ⟨d', hd', h⟩
    · simp only [slideAll, List.mem_append]
      rw [(ih a).2]
      constructor
      · rintro (h | ⟨d', hd', h⟩)
        · exact ⟨d, List.mem_cons_self d ds, h⟩
        · exact ⟨d', List.mem_cons_of_mem d hd', h⟩
      · rintro ⟨d', hd', h⟩
        rcases List.mem_cons.mp hd' with rfl | hd'
        · exact Or.inl h
        · exact Or.inr ⟨d', hd', h⟩

/-- C7: a rook/bishop/queen ray walks square by square (positions
`(x + dx·i, y + dy·i)`, `1 ≤ i ≤ 7`): a ray square is a generated MOVE iff
it and every earlier ray square is in bounds and empty — so the walk includes
every empty square up to the first occupied one and stops there — and a ray
square is a generated ATTACK iff every earlier ray square is in bounds and
empty and the square itself is in bounds and holds an ENEMY piece (a friendly
occupant is excluded, and nothing past the first occupant is generated).
The second conjunct ties the rays to the pieces: a slider's `getPieceMoves`
moves/attacks are exactly the union of its direction list's rays. -/
theorem slider_ray_boundary :
    (∀ (b : Board) (pc : Color) (x y : Int) (d : Int × Int), d ∈ queenDirs →
      ∀ i : Nat, 1 ≤ i → i ≤ 7 →
        (((x + d.1 * (i : Int), y + d.2 * (i : Int)) ∈ (rayWalk b pc 7 x y d.1 d.2).1) ↔
          (∀ j : Nat, 1 ≤ j → j ≤ i →
            inBoard (x + d.1 * (j : Int)) (y + d.2 * (j : Int)) = true ∧
              b (x + d.1 * (j : Int)) (y + d.2 * (j : Int)) = none)) ∧
        (((x + d.1 * (i : Int), y + d.2 * (i : Int)) ∈ (rayWalk b pc 7 x y d.1 d.2).2) ↔
          ((∀ j : Nat, 1 ≤ j → j < i →
            inBoard (x + d.1 * (j : Int)) (y + d.2 * (j : Int)) = true ∧
              b (x + d.1 * (j : Int)) (y + d.2 * (j : Int)) = none) ∧
            inBoard (x + d.1 * (i : Int)) (y + d.2 * (i : Int)) = true ∧
            ∃ t, b (x + d.1 * (i : Int)) (y + d.2 * (i : Int)) = some t ∧ t.color ≠ pc))) ∧
    (∀ (b : Board) (x y : Int) (p : Piece), b x y = some p →
      (p.type = PieceType.rook ∨ p.type = PieceType.bishop ∨ p.type = PieceType.queen) →
      ∀ a : Int × Int,
        (a ∈ (getPieceMoves b x y).1 ↔
          ∃ d, d ∈ slideDirsOf p.type ∧ a ∈ (rayWalk b p.color 7 x y d.1 d.2).1) ∧
        (a ∈ (getPieceMoves b x y).2 ↔
          ∃ d, d ∈ slideDirsOf p.type ∧ a ∈ (rayWalk b p.color 7 x y d.1 d.2).2)) := by
  constructor
  · intro b pc x y d hd i h1 h7
    exact rayWalk_mem_iff b pc d.1 d.2 (queenDirs_ne_zero d hd) 7 x y i h1 h7
  · intro b x y p hb htype a
    rcases htype with h | h | h <;>
      simp only [getPieceMoves, hb, h, slideDirsOf] <;>
      exact slideAll_mem b p.color x y _ a

theorem slider_ray_boundary_witness :
    ( ((0 + 0 * ((3 : Nat) : Int), 0 + 1 * ((3 : Nat) : Int)) ∈
          (rayWalk c7Board Color.white 7 0 0 0 1).1 ↔
        (∀ j : Nat, 1 ≤ j → j ≤ 3 →
          inBoard (0 + 0 * (j : Int)) (0 + 1 * (j : Int)) = true ∧
            c7Board (0 + 0 * (j : Int)) (0 + 1 * (j : Int)) = none))
      ∧
      ((0 + 0 * ((3 : Nat) : Int), 0 + 1 * ((3 : Nat) : Int)) ∈
          (rayWalk c7Board Color.white 7 0 0 0 1).2 ↔
        ((∀ j : Nat, 1 ≤ j → j < 3 →
          inBoard (0 + 0 * (j : Int)) (0 + 1 * (j : Int)) = true ∧
            c7Board (0 + 0 * (j : Int)) (0 + 1 * (j : Int)) = none) ∧
          inBoard (0 + 0 * ((3 : Nat) : Int)) (0 + 1 * ((3 : Nat) : Int)) = true ∧
          ∃ t, c7Board (0 + 0 * ((3 : Nat) : Int)) (0 + 1 * ((3 : Nat) : Int)) = some t ∧
            t.color ≠ Color.white)) )
    ∧
    ( ((0, 3) ∈ (getPieceMoves c7Board 0 0).1 ↔
        ∃ d, d ∈ slideDirsOf PieceType.rook ∧
          (0, 3) ∈ (rayWalk c7Board Color.white 7 0 0 d.1 d.2).1)
      ∧
      ((0, 3) ∈ (getPieceMoves c7Board 0 0).2 ↔
        ∃ d, d ∈ slideDirsOf PieceType.rook ∧
          (0, 3) ∈ (rayWalk c7Board Color.white 7 0 0 d.1 d.2).2) ) :=
  ⟨slider_ray_boundary.1 c7Board Color.white 0 0 (0, 1) (by decide) 3 (by decide) (by decide),
    slider_ray_boundary.2 c7Board 0 0 ⟨Color.white, PieceType.rook, false⟩ rfl
      (Or.inl rfl) (0, 3)⟩

end Chess
